import Mathlib

/-!
Shallow embedding of the `fastapi-users-db-sqlmodel` adapter.

The backing store is modelled relationally: a list of user rows and a list
of OAuth-account rows, in insertion (rowid) order, so that `first()` on an
unordered `SELECT` is the head of the filtered list.  UUID primary keys are
modelled as `Nat`, timestamps as `Int` (a linear order is all the code
uses), and SQL `LOWER` as mapping `Char.toLower` over the characters (`sqlLower`) (ASCII lowering, matching
SQLite's `lower`).  Operations that go through `session.commit()` return an
`Except` together with the resulting store; on a constraint violation the
commit raises `IntegrityError` and the store is unchanged.  The SQL schema
declares `user.email` UNIQUE (binary collation, hence exact string
comparison), `user.id` and `oauthaccount.id` primary keys, and
`accesstoken.token` a primary key.
-/

/-- Errors surfaced by the adapter: constraint violations propagated from the
backing store (`IntegrityError`) and the configuration error raised when an
OAuth operation is attempted without a registered OAuth table
(`NotImplementedError`). -/
inductive DBError where
  | integrityError
  | notImplemented
deriving DecidableEq

/-- Row of the `user` table (`SQLModelBaseUserDB`). -/
structure UserDB where
  id : Nat
  email : String
  hashed_password : String
  is_active : Bool
  is_superuser : Bool
  is_verified : Bool
deriving DecidableEq

/-- Row of the `oauthaccount` table (`SQLModelBaseOAuthAccount`). -/
structure OAuthAccount where
  id : Nat
  user_id : Nat
  oauth_name : String
  access_token : String
  expires_at : Option Int
  refresh_token : Option String
  account_id : String
  account_email : String
deriving DecidableEq

/-- The relational backing store visible to a user-database adapter. -/
structure DBState where
  users : List UserDB
  oauthAccounts : List OAuthAccount
deriving DecidableEq

/-- `create_dict` for a user: `email` and `hashed_password` are required
(`nullable=False` without defaults); `id` and the three flags have model
defaults (`uuid4`, `True`, `False`, `False`). -/
structure CreateUserDict where
  id : Option Nat
  email : String
  hashed_password : String
  is_active : Option Bool
  is_superuser : Option Bool
  is_verified : Option Bool
deriving DecidableEq

/-- `self.user_model(**create_dict)`: builds the row, applying the model
defaults for the fields the dict omits.  `freshId` stands for the value the
`uuid.uuid4` default factory produces. -/
def mkUser (freshId : Nat) (d : CreateUserDict) : UserDB :=
  { id := d.id.getD freshId
    email := d.email
    hashed_password := d.hashed_password
    is_active := d.is_active.getD true
    is_superuser := d.is_superuser.getD false
    is_verified := d.is_verified.getD false }

/-- `create_dict` for an OAuth account; `id` has the `uuid4` default, the
two optional columns are nullable. -/
structure CreateOAuthDict where
  id : Option Nat
  oauth_name : String
  access_token : String
  expires_at : Option Int
  refresh_token : Option String
  account_id : String
  account_email : String
deriving DecidableEq

/-- `self.oauth_account_model(**create_dict)` appended to
`user.oauth_accounts`: the relationship assignment sets `user_id` to the
owning user's id. -/
def mkOAuthAccount (freshId : Nat) (userId : Nat) (d : CreateOAuthDict) : OAuthAccount :=
  { id := d.id.getD freshId
    user_id := userId
    oauth_name := d.oauth_name
    access_token := d.access_token
    expires_at := d.expires_at
    refresh_token := d.refresh_token
    account_id := d.account_id
    account_email := d.account_email }

/-- The fields of a user row, used to speak about which keys an update dict
names. -/
inductive UserField where
  | fId
  | fEmail
  | fHashedPassword
  | fIsActive
  | fIsSuperuser
  | fIsVerified
deriving DecidableEq

/-- Value of a user field, heterogeneous over the column types. -/
inductive UserFieldValue where
  | vNat (n : Nat)
  | vStr (s : String)
  | vBool (b : Bool)
deriving DecidableEq

/-- One `key: value` entry of a user `update_dict`. -/
inductive UserAssign where
  | aId (v : Nat)
  | aEmail (v : String)
  | aHashedPassword (v : String)
  | aIsActive (v : Bool)
  | aIsSuperuser (v : Bool)
  | aIsVerified (v : Bool)
deriving DecidableEq

def UserAssign.key : UserAssign → UserField
  | .aId _ => .fId
  | .aEmail _ => .fEmail
  | .aHashedPassword _ => .fHashedPassword
  | .aIsActive _ => .fIsActive
  | .aIsSuperuser _ => .fIsSuperuser
  | .aIsVerified _ => .fIsVerified

def UserAssign.val : UserAssign → UserFieldValue
  | .aId v => .vNat v
  | .aEmail v => .vStr v
  | .aHashedPassword v => .vStr v
  | .aIsActive v => .vBool v
  | .aIsSuperuser v => .vBool v
  | .aIsVerified v => .vBool v

def UserDB.getField (u : UserDB) : UserField → UserFieldValue
  | .fId => .vNat u.id
  | .fEmail => .vStr u.email
  | .fHashedPassword => .vStr u.hashed_password
  | .fIsActive => .vBool u.is_active
  | .fIsSuperuser => .vBool u.is_superuser
  | .fIsVerified => .vBool u.is_verified

/-- `setattr(user, key, value)` for one entry. -/
def UserDB.setAttr (u : UserDB) : UserAssign → UserDB
  | .aId v => { u with id := v }
  | .aEmail v => { u with email := v }
  | .aHashedPassword v => { u with hashed_password := v }
  | .aIsActive v => { u with is_active := v }
  | .aIsSuperuser v => { u with is_superuser := v }
  | .aIsVerified v => { u with is_verified := v }

/-- `for key, value in update_dict.items(): setattr(user, key, value)`. -/
def applyUserUpdates (u : UserDB) (d : List UserAssign) : UserDB :=
  d.foldl UserDB.setAttr u

/-- The fields of an OAuth-account row. -/
inductive OAuthField where
  | fId
  | fUserId
  | fOauthName
  | fAccessToken
  | fExpiresAt
  | fRefreshToken
  | fAccountId
  | fAccountEmail
deriving DecidableEq

/-- Value of an OAuth-account field. -/
inductive OAuthFieldValue where
  | vNat (n : Nat)
  | vStr (s : String)
  | vOptInt (i : Option Int)
  | vOptStr (s : Option String)
deriving DecidableEq

/-- One `key: value` entry of an OAuth-account `update_dict`. -/
inductive OAuthAssign where
  | aId (v : Nat)
  | aUserId (v : Nat)
  | aOauthName (v : String)
  | aAccessToken (v : String)
  | aExpiresAt (v : Option Int)
  | aRefreshToken (v : Option String)
  | aAccountId (v : String)
  | aAccountEmail (v : String)
deriving DecidableEq

def OAuthAssign.key : OAuthAssign → OAuthField
  | .aId _ => .fId
  | .aUserId _ => .fUserId
  | .aOauthName _ => .fOauthName
  | .aAccessToken _ => .fAccessToken
  | .aExpiresAt _ => .fExpiresAt
  | .aRefreshToken _ => .fRefreshToken
  | .aAccountId _ => .fAccountId
  | .aAccountEmail _ => .fAccountEmail

def OAuthAssign.val : OAuthAssign → OAuthFieldValue
  | .aId v => .vNat v
  | .aUserId v => .vNat v
  | .aOauthName v => .vStr v
  | .aAccessToken v => .vStr v
  | .aExpiresAt v => .vOptInt v
  | .aRefreshToken v => .vOptStr v
  | .aAccountId v => .vStr v
  | .aAccountEmail v => .vStr v

def OAuthAccount.getField (a : OAuthAccount) : OAuthField → OAuthFieldValue
  | .fId => .vNat a.id
  | .fUserId => .vNat a.user_id
  | .fOauthName => .vStr a.oauth_name
  | .fAccessToken => .vStr a.access_token
  | .fExpiresAt => .vOptInt a.expires_at
  | .fRefreshToken => .vOptStr a.refresh_token
  | .fAccountId => .vStr a.account_id
  | .fAccountEmail => .vStr a.account_email

/-- `setattr(oauth_account, key, value)` for one entry. -/
def OAuthAccount.setAttr (a : OAuthAccount) : OAuthAssign → OAuthAccount
  | .aId v => { a with id := v }
  | .aUserId v => { a with user_id := v }
  | .aOauthName v => { a with oauth_name := v }
  | .aAccessToken v => { a with access_token := v }
  | .aExpiresAt v => { a with expires_at := v }
  | .aRefreshToken v => { a with refresh_token := v }
  | .aAccountId v => { a with account_id := v }
  | .aAccountEmail v => { a with account_email := v }

/-- `for key, value in update_dict.items(): setattr(oauth_account, key, value)`. -/
def applyOAuthUpdates (a : OAuthAccount) (d : List OAuthAssign) : OAuthAccount :=
  d.foldl OAuthAccount.setAttr a

/-- SQL `LOWER` (SQLite: ASCII case folding), applied character by
character. -/
def sqlLower (s : String) : String := String.mk (s.data.map Char.toLower)

/-- `session.get(self.user_model, id)`: primary-key lookup. -/
def SQLModelUserDatabase.get (s : DBState) (id : Nat) : Option UserDB :=
  s.users.find? (fun u => u.id == id)

/-- `select(user_model).where(lower(email) == lower(email_arg))` then
`session.exec(statement).first()`. -/
def SQLModelUserDatabase.get_by_email (s : DBState) (email : String) : Option UserDB :=
  (s.users.filter (fun u => sqlLower u.email == sqlLower email)).head?

/-- `get_by_oauth_account`: raises `NotImplementedError` when no OAuth model
was registered (`hasOAuthModel = false`); otherwise selects the first OAuth
account matching provider name and account id and follows its `user`
relationship. -/
def SQLModelUserDatabase.get_by_oauth_account (hasOAuthModel : Bool) (s : DBState)
    (oauth : String) (accountId : String) : Except DBError (Option UserDB) :=
  if !hasOAuthModel then .error .notImplemented
  else
    match ((s.oauthAccounts.filter (fun a => a.oauth_name == oauth)).filter
        (fun a => a.account_id == accountId)).head? with
    | some oauthAccount => .ok (s.users.find? (fun u => u.id == oauthAccount.user_id))
    | none => .ok none

/-- `create`: builds the row from the dict, `session.add` + `commit`.  The
commit enforces the `user` table constraints: primary-key uniqueness on `id`
and the UNIQUE (exact-string) constraint on `email`; on violation it raises
`IntegrityError` and the store is unchanged. -/
def SQLModelUserDatabase.create (s : DBState) (freshId : Nat) (d : CreateUserDict) :
    Except DBError UserDB × DBState :=
  let u := mkUser freshId d
  if s.users.any (fun v => v.id == u.id || v.email == u.email) then
    (.error .integrityError, s)
  else
    (.ok u, { s with users := s.users ++ [u] })

/-- `update`: applies the `setattr` loop to the given row, then commits an
UPDATE targeting the row's original primary key; the commit enforces the
same `id`/`email` uniqueness against the other rows. -/
def SQLModelUserDatabase.update (s : DBState) (user : UserDB) (d : List UserAssign) :
    Except DBError UserDB × DBState :=
  let u := applyUserUpdates user d
  if (s.users.filter (fun v => v.id != user.id)).any
      (fun v => v.id == u.id || v.email == u.email) then
    (.error .integrityError, s)
  else
    (.ok u, { s with users := s.users.map (fun v => if v.id == user.id then u else v) })

/-- `delete`: `session.delete(user)` + `commit` removes the row with the
user's primary key. -/
def SQLModelUserDatabase.delete (s : DBState) (user : UserDB) :
    Except DBError Unit × DBState :=
  (.ok (), { s with users := s.users.filter (fun v => v.id != user.id) })

/-- `add_oauth_account`: raises `NotImplementedError` without a registered
OAuth model; otherwise builds the account row, appends it through the
relationship and commits, the commit enforcing the `oauthaccount`
primary-key constraint. -/
def SQLModelUserDatabase.add_oauth_account (hasOAuthModel : Bool) (s : DBState)
    (user : UserDB) (freshId : Nat) (d : CreateOAuthDict) :
    Except DBError UserDB × DBState :=
  if !hasOAuthModel then (.error .notImplemented, s)
  else
    let oauthAccount := mkOAuthAccount freshId user.id d
    if s.oauthAccounts.any (fun a => a.id == oauthAccount.id) then
      (.error .integrityError, s)
    else
      (.ok user, { s with oauthAccounts := s.oauthAccounts ++ [oauthAccount] })

/-- `update_oauth_account`: raises `NotImplementedError` without a
registered OAuth model; otherwise applies the `setattr` loop to the OAuth
account row, commits the UPDATE targeting its original primary key, and
returns the user object it was given. -/
def SQLModelUserDatabase.update_oauth_account (hasOAuthModel : Bool) (s : DBState)
    (user : UserDB) (oauthAccount : OAuthAccount) (d : List OAuthAssign) :
    Except DBError UserDB × DBState :=
  if !hasOAuthModel then (.error .notImplemented, s)
  else
    let a := applyOAuthUpdates oauthAccount d
    if (s.oauthAccounts.filter (fun x => x.id != oauthAccount.id)).any
        (fun x => x.id == a.id) then
      (.error .integrityError, s)
    else
      (.ok user,
        { s with oauthAccounts :=
            s.oauthAccounts.map (fun x => if x.id == oauthAccount.id then a else x) })

/-- `session.get` on the async session: identical primary-key lookup. -/
def SQLModelUserDatabaseAsync.get (s : DBState) (id : Nat) : Option UserDB :=
  s.users.find? (fun u => u.id == id)

/-- Async `get_by_email`: `session.execute(statement)` yields rows (modelled
as one-element tuples); `results.first()` then `object[0]`. -/
def SQLModelUserDatabaseAsync.get_by_email (s : DBState) (email : String) : Option UserDB :=
  match ((s.users.filter (fun u => sqlLower u.email == sqlLower email)).map
      (fun u => (u, ()))).head? with
  | none => none
  | some object => some object.1

/-- Async `get_by_oauth_account`: same statement with
`selectinload(user)` (eager loading, no change to the selected rows), rows
as one-element tuples, then `oauth_account[0].user`. -/
def SQLModelUserDatabaseAsync.get_by_oauth_account (hasOAuthModel : Bool) (s : DBState)
    (oauth : String) (accountId : String) : Except DBError (Option UserDB) :=
  if !hasOAuthModel then .error .notImplemented
  else
    match (((s.oauthAccounts.filter (fun a => a.oauth_name == oauth)).filter
        (fun a => a.account_id == accountId)).map (fun a => (a, ()))).head? with
    | some oauthAccount =>
        .ok (s.users.find? (fun u => u.id == oauthAccount.1.user_id))
    | none => .ok none

/-- Async `create`: same add/commit/refresh sequence on the async session. -/
def SQLModelUserDatabaseAsync.create (s : DBState) (freshId : Nat) (d : CreateUserDict) :
    Except DBError UserDB × DBState :=
  let u := mkUser freshId d
  if s.users.any (fun v => v.id == u.id || v.email == u.email) then
    (.error .integrityError, s)
  else
    (.ok u, { s with users := s.users ++ [u] })

/-- Async `update`: same `setattr` loop, add/commit/refresh. -/
def SQLModelUserDatabaseAsync.update (s : DBState) (user : UserDB) (d : List UserAssign) :
    Except DBError UserDB × DBState :=
  let u := applyUserUpdates user d
  if (s.users.filter (fun v => v.id != user.id)).any
      (fun v => v.id == u.id || v.email == u.email) then
    (.error .integrityError, s)
  else
    (.ok u, { s with users := s.users.map (fun v => if v.id == user.id then u else v) })

/-- Async `delete`: same delete/commit. -/
def SQLModelUserDatabaseAsync.delete (s : DBState) (user : UserDB) :
    Except DBError Unit × DBState :=
  (.ok (), { s with users := s.users.filter (fun v => v.id != user.id) })

/-- Async `add_oauth_account`: same construction, append and commit. -/
def SQLModelUserDatabaseAsync.add_oauth_account (hasOAuthModel : Bool) (s : DBState)
    (user : UserDB) (freshId : Nat) (d : CreateOAuthDict) :
    Except DBError UserDB × DBState :=
  if !hasOAuthModel then (.error .notImplemented, s)
  else
    let oauthAccount := mkOAuthAccount freshId user.id d
    if s.oauthAccounts.any (fun a => a.id == oauthAccount.id) then
      (.error .integrityError, s)
    else
      (.ok user, { s with oauthAccounts := s.oauthAccounts ++ [oauthAccount] })

/-- Async `update_oauth_account`: same `setattr` loop, add/commit, returns
the given user. -/
def SQLModelUserDatabaseAsync.update_oauth_account (hasOAuthModel : Bool) (s : DBState)
    (user : UserDB) (oauthAccount : OAuthAccount) (d : List OAuthAssign) :
    Except DBError UserDB × DBState :=
  if !hasOAuthModel then (.error .notImplemented, s)
  else
    let a := applyOAuthUpdates oauthAccount d
    if (s.oauthAccounts.filter (fun x => x.id != oauthAccount.id)).any
        (fun x => x.id == a.id) then
      (.error .integrityError, s)
    else
      (.ok user,
        { s with oauthAccounts :=
            s.oauthAccounts.map (fun x => if x.id == oauthAccount.id then a else x) })

/-- Row of the `accesstoken` table (`SQLModelBaseAccessToken`): the token
string is the primary key; `created_at` is a UTC timestamp, modelled as an
integer since only its linear order is used. -/
structure AccessToken where
  token : String
  created_at : Int
  user_id : Nat
deriving DecidableEq

/-- Row of the `accessrefreshtoken` table
(`SQLModelBaseAccessRefreshToken`): adds a UNIQUE `refresh_token` column. -/
structure AccessRefreshToken extends AccessToken where
  refresh_token : String
deriving DecidableEq

/-- The `WHERE created_at >= max_age` filter added when `max_age` is not
`None`. -/
def maxAgeFilter (tokens : List AccessToken) (max_age : Option Int) : List AccessToken :=
  match max_age with
  | none => tokens
  | some m => tokens.filter (fun a => decide (m ≤ a.created_at))

/-- Sync `get_by_token` (`BaseSQLModelAccessTokenDatabase`): select by
token, optionally filter by `created_at >= max_age`, then
`session.execute(statement).first()` and `access_token[0]`. -/
def BaseSQLModelAccessTokenDatabase.get_by_token (tokens : List AccessToken)
    (token : String) (max_age : Option Int) : Option AccessToken :=
  match ((maxAgeFilter (tokens.filter (fun a => a.token == token)) max_age).map
      (fun a => (a, ()))).head? with
  | none => none
  | some access_token => some access_token.1

/-- Async `get_by_token` (`BaseSQLModelAccessTokenDatabaseAsync`): same
statement through the async session's `execute`. -/
def BaseSQLModelAccessTokenDatabaseAsync.get_by_token (tokens : List AccessToken)
    (token : String) (max_age : Option Int) : Option AccessToken :=
  match ((maxAgeFilter (tokens.filter (fun a => a.token == token)) max_age).map
      (fun a => (a, ()))).head? with
  | none => none
  | some access_token => some access_token.1

/-- The refresh variant of the `created_at >= max_age` filter. -/
def maxAgeFilterR (tokens : List AccessRefreshToken) (max_age : Option Int) :
    List AccessRefreshToken :=
  match max_age with
  | none => tokens
  | some m => tokens.filter (fun a => decide (m ≤ a.created_at))

/-- Sync `get_by_refresh_token` (`SQLModelAccessRefreshTokenDatabase`):
select by `refresh_token`, optional `created_at >= max_age` filter, then
`session.exec(statement).first()` (no tuple indexing on this path). -/
def SQLModelAccessRefreshTokenDatabase.get_by_refresh_token
    (tokens : List AccessRefreshToken) (refreshToken : String) (max_age : Option Int) :
    Option AccessRefreshToken :=
  (maxAgeFilterR (tokens.filter (fun a => a.refresh_token == refreshToken)) max_age).head?

/-- Async `get_by_refresh_token`: same statement through `execute`, rows as
one-element tuples, then `access_token[0]`. -/
def SQLModelAccessRefreshTokenDatabaseAsync.get_by_refresh_token
    (tokens : List AccessRefreshToken) (refreshToken : String) (max_age : Option Int) :
    Option AccessRefreshToken :=
  match ((maxAgeFilterR (tokens.filter (fun a => a.refresh_token == refreshToken))
      max_age).map (fun a => (a, ()))).head? with
  | none => none
  | some access_token => some access_token.1

/-- A read-only operation of the user adapter: the three lookup methods,
which execute `SELECT` statements only. -/
inductive ReadOp where
  | rGet (id : Nat)
  | rGetByEmail (email : String)
  | rGetByOAuth (hasOAuthModel : Bool) (oauth : String) (accountId : String)

/-- Running one read: the lookup computes its result and leaves the store
as it was (a `SELECT` writes nothing). -/
def runRead (s : DBState) : ReadOp → DBState
  | .rGet id =>
      let _ := SQLModelUserDatabase.get s id
      s
  | .rGetByEmail email =>
      let _ := SQLModelUserDatabase.get_by_email s email
      s
  | .rGetByOAuth h oauth accountId =>
      let _ := SQLModelUserDatabase.get_by_oauth_account h s oauth accountId
      s

/-- Running a sequence of reads. -/
def runReads (s : DBState) (ops : List ReadOp) : DBState :=
  ops.foldl runRead s

/-- Store states reachable from an empty database through the adapter's
mutating operations (the lookups do not write). -/
inductive Reachable : DBState → Prop where
  | empty : Reachable ⟨[], []⟩
  | step_create (s : DBState) (f : Nat) (d : CreateUserDict) :
      Reachable s → Reachable (SQLModelUserDatabase.create s f d).2
  | step_update (s : DBState) (u : UserDB) (d : List UserAssign) :
      Reachable s → Reachable (SQLModelUserDatabase.update s u d).2
  | step_delete (s : DBState) (u : UserDB) :
      Reachable s → Reachable (SQLModelUserDatabase.delete s u).2
  | step_add_oauth (hm : Bool) (s : DBState) (u : UserDB) (f : Nat)
      (d : CreateOAuthDict) :
      Reachable s → Reachable (SQLModelUserDatabase.add_oauth_account hm s u f d).2
  | step_update_oauth (hm : Bool) (s : DBState) (u : UserDB) (oa : OAuthAccount)
      (d : List OAuthAssign) :
      Reachable s → Reachable (SQLModelUserDatabase.update_oauth_account hm s u oa d).2

/-! ### General lemmas about the embedding -/

theorem head_filter_eq_find {α : Type} (p : α → Bool) (l : List α) :
    (l.filter p).head? = l.find? p := by
  induction l with
  | nil => rfl
  | cons a t ih =>
    by_cases h : p a
    · simp [List.filter_cons, h, List.find?_cons_of_pos]
    · simp only [List.filter_cons, h, Bool.false_eq_true, if_false, ih]
      rw [List.find?_cons_of_neg _ (by simp [h])]

theorem runRead_id (s : DBState) (op : ReadOp) : runRead s op = s := by
  cases op <;> rfl

theorem runReads_id (s : DBState) (ops : List ReadOp) : runReads s ops = s := by
  induction ops with
  | nil => rfl
  | cons op t ih => simp [runReads, List.foldl_cons, runRead_id, runReads, ih] at ih ⊢; exact ih

/-- C7: The blocking adapter and the non-blocking adapter implement the
identical contract: for every operation, every input and every store state,
both return the same result (or the same error) and leave the store in the
same state. -/
theorem sync_async_same_contract (s : DBState) (id : Nat) (email oauth accountId : String)
    (hasOAuthModel : Bool) (freshId : Nat) (cd : CreateUserDict) (user : UserDB)
    (ud : List UserAssign) (od : CreateOAuthDict) (oa : OAuthAccount)
    (oud : List OAuthAssign) :
    SQLModelUserDatabaseAsync.get s id = SQLModelUserDatabase.get s id ∧
    SQLModelUserDatabaseAsync.get_by_email s email
      = SQLModelUserDatabase.get_by_email s email ∧
    SQLModelUserDatabaseAsync.get_by_oauth_account hasOAuthModel s oauth accountId
      = SQLModelUserDatabase.get_by_oauth_account hasOAuthModel s oauth accountId ∧
    SQLModelUserDatabaseAsync.create s freshId cd
      = SQLModelUserDatabase.create s freshId cd ∧
    SQLModelUserDatabaseAsync.update s user ud
      = SQLModelUserDatabase.update s user ud ∧
    SQLModelUserDatabaseAsync.delete s user
      = SQLModelUserDatabase.delete s user ∧
    SQLModelUserDatabaseAsync.add_oauth_account hasOAuthModel s user freshId od
      = SQLModelUserDatabase.add_oauth_account hasOAuthModel s user freshId od ∧
    SQLModelUserDatabaseAsync.update_oauth_account hasOAuthModel s user oa oud
      = SQLModelUserDatabase.update_oauth_account hasOAuthModel s user oa oud := by
  refine ⟨rfl, ?_, ?_, rfl, rfl, rfl, rfl, rfl⟩
  · simp only [SQLModelUserDatabaseAsync.get_by_email, SQLModelUserDatabase.get_by_email]
    cases (s.users.filter (fun u => sqlLower u.email == sqlLower email)) <;> rfl
  · simp only [SQLModelUserDatabaseAsync.get_by_oauth_account,
      SQLModelUserDatabase.get_by_oauth_account]
    cases hasOAuthModel
    · rfl
    · cases ((s.oauthAccounts.filter (fun a => a.oauth_name == oauth)).filter
        (fun a => a.account_id == accountId)) <;> rfl

/-- C2: With no OAuth account model registered, `get_by_oauth_account`,
`add_oauth_account` and `update_oauth_account` all raise
`NotImplementedError` and leave the store untouched; with an OAuth model
registered, none of them raises that error.  Stated for both the blocking
and the non-blocking adapter. -/
theorem oauth_ops_require_model (s : DBState) (oauth accountId : String) (user : UserDB)
    (freshId : Nat) (d : CreateOAuthDict) (oa : OAuthAccount) (ud : List OAuthAssign) :
    SQLModelUserDatabase.get_by_oauth_account false s oauth accountId
      = .error .notImplemented ∧
    (SQLModelUserDatabase.add_oauth_account false s user freshId d).1
      = .error .notImplemented ∧
    (SQLModelUserDatabase.add_oauth_account false s user freshId d).2 = s ∧
    (SQLModelUserDatabase.update_oauth_account false s user oa ud).1
      = .error .notImplemented ∧
    (SQLModelUserDatabase.update_oauth_account false s user oa ud).2 = s ∧
    SQLModelUserDatabaseAsync.get_by_oauth_account false s oauth accountId
      = .error .notImplemented ∧
    (SQLModelUserDatabaseAsync.add_oauth_account false s user freshId d).1
      = .error .notImplemented ∧
    (SQLModelUserDatabaseAsync.add_oauth_account false s user freshId d).2 = s ∧
    (SQLModelUserDatabaseAsync.update_oauth_account false s user oa ud).1
      = .error .notImplemented ∧
    (SQLModelUserDatabaseAsync.update_oauth_account false s user oa ud).2 = s ∧
    SQLModelUserDatabase.get_by_oauth_account true s oauth accountId
      ≠ .error .notImplemented ∧
    (SQLModelUserDatabase.add_oauth_account true s user freshId d).1
      ≠ .error .notImplemented ∧
    (SQLModelUserDatabase.update_oauth_account true s user oa ud).1
      ≠ .error .notImplemented ∧
    SQLModelUserDatabaseAsync.get_by_oauth_account true s oauth accountId
      ≠ .error .notImplemented ∧
    (SQLModelUserDatabaseAsync.add_oauth_account true s user freshId d).1
      ≠ .error .notImplemented ∧
    (SQLModelUserDatabaseAsync.update_oauth_account true s user oa ud).1
      ≠ .error .notImplemented := by
  refine ⟨rfl, rfl, rfl, rfl, rfl, rfl, rfl, rfl, rfl, rfl, ?_, ?_, ?_, ?_, ?_, ?_⟩
  · simp only [SQLModelUserDatabase.get_by_oauth_account]
    cases hl : ((s.oauthAccounts.filter (fun a => a.oauth_name == oauth)).filter
        (fun a => a.account_id == accountId)).head? <;>
      simp [hl]
  · simp only [SQLModelUserDatabase.add_oauth_account]
    by_cases hc : s.oauthAccounts.any
        (fun a => a.id == (mkOAuthAccount freshId user.id d).id) <;>
      simp [hc]
  · simp only [SQLModelUserDatabase.update_oauth_account]
    by_cases hc : (s.oauthAccounts.filter (fun x => x.id != oa.id)).any
        (fun x => x.id == (applyOAuthUpdates oa ud).id) <;>
      simp [hc]
  · simp only [SQLModelUserDatabaseAsync.get_by_oauth_account]
    cases hl : (((s.oauthAccounts.filter (fun a => a.oauth_name == oauth)).filter
        (fun a => a.account_id == accountId)).map (fun a => (a, ()))).head? <;>
      simp [hl]
  · simp only [SQLModelUserDatabaseAsync.add_oauth_account]
    by_cases hc : s.oauthAccounts.any
        (fun a => a.id == (mkOAuthAccount freshId user.id d).id) <;>
      simp [hc]
  · simp only [SQLModelUserDatabaseAsync.update_oauth_account]
    by_cases hc : (s.oauthAccounts.filter (fun x => x.id != oa.id)).any
        (fun x => x.id == (applyOAuthUpdates oa ud).id) <;>
      simp [hc]

/-- C4: After `delete(user)`, `get` with that user's id returns absent, and
it still returns absent after any further sequence of read operations:
reads do not undo the deletion. -/
theorem delete_then_get_absent (s : DBState) (user : UserDB) (ops : List ReadOp) :
    SQLModelUserDatabase.get (SQLModelUserDatabase.delete s user).2 user.id = none ∧
    SQLModelUserDatabase.get
      (runReads (SQLModelUserDatabase.delete s user).2 ops) user.id = none := by
  have hget : SQLModelUserDatabase.get (SQLModelUserDatabase.delete s user).2 user.id
      = none := by
    simp only [SQLModelUserDatabase.get, SQLModelUserDatabase.delete]
    rw [List.find?_eq_none]
    intro v hv
    have := (List.mem_filter.mp hv).2
    simp only [bne_iff_ne, ne_eq] at this
    simp [this]
  exact ⟨hget, by rw [runReads_id]; exact hget⟩

theorem head_all_eq {α : Type} (l : List α) (t : α) (hmem : t ∈ l)
    (hall : ∀ x ∈ l, x = t) : l.head? = some t := by
  cases l with
  | nil => cases hmem
  | cons a r => simp [hall a (List.mem_cons_self a r)]

theorem get_by_email_found (l : List UserDB) (user : UserDB) (e : String)
    (hmem : user ∈ l)
    (huniq : (l.map (fun u => sqlLower u.email)).Nodup)
    (he : sqlLower e = sqlLower user.email) :
    (l.filter (fun u => sqlLower u.email == sqlLower e)).head? = some user := by
  rw [head_filter_eq_find]
  induction l with
  | nil => cases hmem
  | cons v t ih =>
    rw [List.map_cons, List.nodup_cons] at huniq
    obtain ⟨hnotin, hnd⟩ := huniq
    rcases List.mem_cons.mp hmem with rfl | hmem2
    · exact List.find?_cons_of_pos _ (by simp [he])
    · by_cases hv : sqlLower v.email == sqlLower e
      · exfalso
        have hvu : sqlLower v.email = sqlLower user.email := (eq_of_beq hv).trans he
        have hin : sqlLower user.email ∈ t.map (fun u => sqlLower u.email) :=
          List.mem_map_of_mem _ hmem2
        exact hnotin (hvu ▸ hin)
      · rw [List.find?_cons_of_neg _ (by simpa using hv)]
        exact ih hmem2 hnd

/-- C1: `get_by_email` matches emails case-insensitively (lowercasing both
sides): a stored user is found by any query equal to its email up to ASCII
case, and the lookup returns absent when no stored email matches
case-insensitively.  The store is assumed to satisfy the spec's
case-insensitive email uniqueness invariant, so "that user" is
well-defined. -/
theorem get_by_email_case_insensitive (s : DBState) (user : UserDB) (e e2 : String)
    (hmem : user ∈ s.users)
    (huniq : (s.users.map (fun u => sqlLower u.email)).Nodup)
    (he : sqlLower e = sqlLower user.email)
    (habs : ∀ v ∈ s.users, sqlLower v.email ≠ sqlLower e2) :
    SQLModelUserDatabase.get_by_email s e = some user ∧
    SQLModelUserDatabase.get_by_email s e2 = none := by
  constructor
  · exact get_by_email_found s.users user e hmem huniq he
  · simp only [SQLModelUserDatabase.get_by_email]
    rw [head_filter_eq_find, List.find?_eq_none]
    intro x hx
    simpa using habs x hx

/-- Witness for C1: a user created with `lancelot@camelot.bt` is found via
`Lancelot@camelot.bt`, and `galahad@camelot.bt` finds nobody. -/
theorem get_by_email_case_insensitive_witness :
    (⟨1, "lancelot@camelot.bt", "guinevere", true, false, false⟩ : UserDB)
      ∈ (⟨[⟨1, "lancelot@camelot.bt", "guinevere", true, false, false⟩], []⟩
          : DBState).users ∧
    ((⟨[⟨1, "lancelot@camelot.bt", "guinevere", true, false, false⟩], []⟩
        : DBState).users.map (fun u => sqlLower u.email)).Nodup ∧
    sqlLower "Lancelot@camelot.bt"
      = sqlLower (⟨1, "lancelot@camelot.bt", "guinevere", true, false, false⟩
          : UserDB).email ∧
    (∀ v ∈ (⟨[⟨1, "lancelot@camelot.bt", "guinevere", true, false, false⟩], []⟩
        : DBState).users, sqlLower v.email ≠ sqlLower "galahad@camelot.bt") ∧
    SQLModelUserDatabase.get_by_email
      ⟨[⟨1, "lancelot@camelot.bt", "guinevere", true, false, false⟩], []⟩
      "Lancelot@camelot.bt"
      = some ⟨1, "lancelot@camelot.bt", "guinevere", true, false, false⟩ ∧
    SQLModelUserDatabase.get_by_email
      ⟨[⟨1, "lancelot@camelot.bt", "guinevere", true, false, false⟩], []⟩
      "galahad@camelot.bt" = none := by
  refine ⟨by decide, by decide, by decide, by decide, ?_⟩
  exact get_by_email_case_insensitive _ _ _ _ (by decide) (by decide) (by decide) (by decide)

theorem token_rows_head (tokens : List AccessToken) (t : AccessToken) (ma : Option Int)
    (hmem : t ∈ tokens) (huniq : ∀ x ∈ tokens, x.token = t.token → x = t)
    (hage : ∀ m, ma = some m → m ≤ t.created_at) :
    (maxAgeFilter (tokens.filter (fun a => a.token == t.token)) ma).head? = some t := by
  have hl1mem : t ∈ tokens.filter (fun a => a.token == t.token) :=
    List.mem_filter.mpr ⟨hmem, by simp⟩
  have hl1all : ∀ x ∈ tokens.filter (fun a => a.token == t.token), x = t := by
    intro x hx
    have hx2 := List.mem_filter.mp hx
    exact huniq x hx2.1 (by simpa using hx2.2)
  cases ma with
  | none => exact head_all_eq _ t hl1mem hl1all
  | some m =>
    simp only [maxAgeFilter]
    refine head_all_eq _ t ?_ ?_
    · exact List.mem_filter.mpr ⟨hl1mem, by simpa using hage m rfl⟩
    · intro x hx
      exact hl1all x (List.mem_filter.mp hx).1

theorem token_rows_empty (tokens : List AccessToken) (t : AccessToken) (m : Int)
    (huniq : ∀ x ∈ tokens, x.token = t.token → x = t)
    (hlt : t.created_at < m) :
    maxAgeFilter (tokens.filter (fun a => a.token == t.token)) (some m) = [] := by
  simp only [maxAgeFilter]
  rw [List.filter_eq_nil_iff]
  intro x hx
  have hx2 := List.mem_filter.mp hx
  have hxt : x = t := huniq x hx2.1 (by simpa using hx2.2)
  subst hxt
  simp only [decide_eq_true_eq]
  omega

theorem get_by_token_of_rows_head (tokens : List AccessToken) (token : String)
    (ma : Option Int) (t : AccessToken)
    (h : (maxAgeFilter (tokens.filter (fun a => a.token == token)) ma).head? = some t) :
    BaseSQLModelAccessTokenDatabase.get_by_token tokens token ma = some t ∧
    BaseSQLModelAccessTokenDatabaseAsync.get_by_token tokens token ma = some t := by
  simp only [BaseSQLModelAccessTokenDatabase.get_by_token,
    BaseSQLModelAccessTokenDatabaseAsync.get_by_token]
  cases hl : maxAgeFilter (tokens.filter (fun a => a.token == token)) ma with
  | nil => rw [hl] at h; exact absurd h (by simp)
  | cons a r =>
    rw [hl] at h
    simp only [List.head?_cons, Option.some.injEq] at h
    subst h
    simp

theorem get_by_token_of_rows_nil (tokens : List AccessToken) (token : String)
    (ma : Option Int)
    (h : maxAgeFilter (tokens.filter (fun a => a.token == token)) ma = []) :
    BaseSQLModelAccessTokenDatabase.get_by_token tokens token ma = none ∧
    BaseSQLModelAccessTokenDatabaseAsync.get_by_token tokens token ma = none := by
  simp only [BaseSQLModelAccessTokenDatabase.get_by_token,
    BaseSQLModelAccessTokenDatabaseAsync.get_by_token, h]
  exact ⟨rfl, rfl⟩

/-- C3: For a stored access token, `get_by_token` with a `max_age` cutoff
strictly later than its `created_at` returns absent, while a cutoff
strictly earlier than `created_at`, or no cutoff at all, returns the token
record — in both the blocking and the non-blocking adapter. -/
theorem get_by_token_max_age_cutoff (tokens : List AccessToken) (t : AccessToken)
    (m1 m2 : Int)
    (hmem : t ∈ tokens) (huniq : ∀ x ∈ tokens, x.token = t.token → x = t)
    (hfut : t.created_at < m1) (hpast : m2 < t.created_at) :
    BaseSQLModelAccessTokenDatabase.get_by_token tokens t.token (some m1) = none ∧
    BaseSQLModelAccessTokenDatabaseAsync.get_by_token tokens t.token (some m1) = none ∧
    BaseSQLModelAccessTokenDatabase.get_by_token tokens t.token (some m2) = some t ∧
    BaseSQLModelAccessTokenDatabaseAsync.get_by_token tokens t.token (some m2) = some t ∧
    BaseSQLModelAccessTokenDatabase.get_by_token tokens t.token none = some t ∧
    BaseSQLModelAccessTokenDatabaseAsync.get_by_token tokens t.token none = some t := by
  have hnone := get_by_token_of_rows_nil tokens t.token (some m1)
    (token_rows_empty tokens t m1 huniq hfut)
  have hpast2 := get_by_token_of_rows_head tokens t.token (some m2) t
    (token_rows_head tokens t (some m2) hmem huniq
      (by intro m hm; injection hm with hm2; omega))
  have hno := get_by_token_of_rows_head tokens t.token none t
    (token_rows_head tokens t none hmem huniq (by intro m hm; cases hm))
  exact ⟨hnone.1, hnone.2, hpast2.1, hpast2.2, hno.1, hno.2⟩

/-- Witness for C3: a token created at time 100 is absent for a cutoff of
101 and present for a cutoff of 99 or none. -/
theorem get_by_token_max_age_cutoff_witness :
    (⟨"TOKEN", 100, 1⟩ : AccessToken) ∈ [(⟨"TOKEN", 100, 1⟩ : AccessToken)] ∧
    (∀ x ∈ [(⟨"TOKEN", 100, 1⟩ : AccessToken)],
      x.token = (⟨"TOKEN", 100, 1⟩ : AccessToken).token
        → x = (⟨"TOKEN", 100, 1⟩ : AccessToken)) ∧
    (⟨"TOKEN", 100, 1⟩ : AccessToken).created_at < (101 : Int) ∧
    (99 : Int) < (⟨"TOKEN", 100, 1⟩ : AccessToken).created_at ∧
    BaseSQLModelAccessTokenDatabase.get_by_token
      [(⟨"TOKEN", 100, 1⟩ : AccessToken)] "TOKEN" (some 101) = none ∧
    BaseSQLModelAccessTokenDatabase.get_by_token
      [(⟨"TOKEN", 100, 1⟩ : AccessToken)] "TOKEN" (some 99)
      = some ⟨"TOKEN", 100, 1⟩ ∧
    BaseSQLModelAccessTokenDatabase.get_by_token
      [(⟨"TOKEN", 100, 1⟩ : AccessToken)] "TOKEN" none = some ⟨"TOKEN", 100, 1⟩ := by
  refine ⟨by decide, by decide, by decide, by decide, ?_⟩
  have h := get_by_token_max_age_cutoff [⟨"TOKEN", 100, 1⟩] ⟨"TOKEN", 100, 1⟩ 101 99
    (by decide) (by decide) (by decide) (by decide)
  exact ⟨h.1, h.2.2.1, h.2.2.2.2.1⟩

theorem rtoken_rows_head (tokens : List AccessRefreshToken) (t : AccessRefreshToken)
    (ma : Option Int)
    (hmem : t ∈ tokens)
    (huniq : ∀ x ∈ tokens, x.refresh_token = t.refresh_token → x = t)
    (hage : ∀ m, ma = some m → m ≤ t.created_at) :
    (maxAgeFilterR (tokens.filter (fun a => a.refresh_token == t.refresh_token))
      ma).head? = some t := by
  have hl1mem : t ∈ tokens.filter (fun a => a.refresh_token == t.refresh_token) :=
    List.mem_filter.mpr ⟨hmem, by simp⟩
  have hl1all : ∀ x ∈ tokens.filter (fun a => a.refresh_token == t.refresh_token),
      x = t := by
    intro x hx
    have hx2 := List.mem_filter.mp hx
    exact huniq x hx2.1 (by simpa using hx2.2)
  cases ma with
  | none => exact head_all_eq _ t hl1mem hl1all
  | some m =>
    simp only [maxAgeFilterR]
    refine head_all_eq _ t ?_ ?_
    · exact List.mem_filter.mpr ⟨hl1mem, by simpa using hage m rfl⟩
    · intro x hx
      exact hl1all x (List.mem_filter.mp hx).1

/-- C9: The `max_age` cutoff is inclusive at the boundary: the filter keeps
tokens with `created_at >= max_age`, so a lookup with `max_age` exactly
equal to `created_at` still returns the token — for `get_by_token` and for
`get_by_refresh_token`, in both execution modes. -/
theorem max_age_boundary_inclusive (tokens : List AccessToken) (t : AccessToken)
    (rtokens : List AccessRefreshToken) (rt : AccessRefreshToken)
    (hmem : t ∈ tokens) (huniq : ∀ x ∈ tokens, x.token = t.token → x = t)
    (hmemR : rt ∈ rtokens)
    (huniqR : ∀ x ∈ rtokens, x.refresh_token = rt.refresh_token → x = rt) :
    BaseSQLModelAccessTokenDatabase.get_by_token tokens t.token
      (some t.created_at) = some t ∧
    BaseSQLModelAccessTokenDatabaseAsync.get_by_token tokens t.token
      (some t.created_at) = some t ∧
    SQLModelAccessRefreshTokenDatabase.get_by_refresh_token rtokens rt.refresh_token
      (some rt.created_at) = some rt ∧
    SQLModelAccessRefreshTokenDatabaseAsync.get_by_refresh_token rtokens
      rt.refresh_token (some rt.created_at) = some rt := by
  have hat := get_by_token_of_rows_head tokens t.token (some t.created_at) t
    (token_rows_head tokens t (some t.created_at) hmem huniq
      (by intro m hm; injection hm with hm2; omega))
  have hrt := rtoken_rows_head rtokens rt (some rt.created_at) hmemR huniqR
    (by intro m hm; injection hm with hm2; omega)
  refine ⟨hat.1, hat.2, hrt, ?_⟩
  simp only [SQLModelAccessRefreshTokenDatabaseAsync.get_by_refresh_token]
  cases hl : maxAgeFilterR (rtokens.filter
      (fun a => a.refresh_token == rt.refresh_token)) (some rt.created_at) with
  | nil => rw [hl] at hrt; exact absurd hrt (by simp)
  | cons a r =>
    rw [hl] at hrt
    simp only [List.head?_cons, Option.some.injEq] at hrt
    subst hrt
    simp

/-- Witness for C9: a token created at time 100 is still returned for a
cutoff of exactly 100, on both the token and the refresh-token paths. -/
theorem max_age_boundary_inclusive_witness :
    (⟨"TOKEN", 100, 1⟩ : AccessToken) ∈ [(⟨"TOKEN", 100, 1⟩ : AccessToken)] ∧
    (∀ x ∈ [(⟨"TOKEN", 100, 1⟩ : AccessToken)],
      x.token = (⟨"TOKEN", 100, 1⟩ : AccessToken).token
        → x = (⟨"TOKEN", 100, 1⟩ : AccessToken)) ∧
    (⟨⟨"TOKEN", 100, 1⟩, "RTOKEN"⟩ : AccessRefreshToken)
      ∈ [(⟨⟨"TOKEN", 100, 1⟩, "RTOKEN"⟩ : AccessRefreshToken)] ∧
    (∀ x ∈ [(⟨⟨"TOKEN", 100, 1⟩, "RTOKEN"⟩ : AccessRefreshToken)],
      x.refresh_token
          = (⟨⟨"TOKEN", 100, 1⟩, "RTOKEN"⟩ : AccessRefreshToken).refresh_token
        → x = (⟨⟨"TOKEN", 100, 1⟩, "RTOKEN"⟩ : AccessRefreshToken)) ∧
    BaseSQLModelAccessTokenDatabase.get_by_token
      [(⟨"TOKEN", 100, 1⟩ : AccessToken)] "TOKEN" (some 100)
      = some ⟨"TOKEN", 100, 1⟩ ∧
    SQLModelAccessRefreshTokenDatabase.get_by_refresh_token
      [(⟨⟨"TOKEN", 100, 1⟩, "RTOKEN"⟩ : AccessRefreshToken)] "RTOKEN" (some 100)
      = some ⟨⟨"TOKEN", 100, 1⟩, "RTOKEN"⟩ := by
  refine ⟨by decide, by decide, by decide, by decide, ?_⟩
  have h := max_age_boundary_inclusive [⟨"TOKEN", 100, 1⟩] ⟨"TOKEN", 100, 1⟩
    [⟨⟨"TOKEN", 100, 1⟩, "RTOKEN"⟩] ⟨⟨"TOKEN", 100, 1⟩, "RTOKEN"⟩
    (by decide) (by decide) (by decide) (by decide)
  exact ⟨h.1, h.2.2.1⟩

/-- C5: When a user with the given email is already stored, `create` with a
field dictionary carrying that same email fails with the
uniqueness-violation error and leaves the store unchanged — in both
execution modes. -/
theorem create_duplicate_email_fails (s : DBState) (freshId : Nat) (d : CreateUserDict)
    (hdup : ∃ v ∈ s.users, v.email = d.email) :
    (SQLModelUserDatabase.create s freshId d).1 = .error .integrityError ∧
    (SQLModelUserDatabase.create s freshId d).2 = s ∧
    (SQLModelUserDatabaseAsync.create s freshId d).1 = .error .integrityError ∧
    (SQLModelUserDatabaseAsync.create s freshId d).2 = s := by
  obtain ⟨v, hv, hve⟩ := hdup
  have hany : s.users.any
      (fun w => w.id == (mkUser freshId d).id || w.email == (mkUser freshId d).email)
        = true := by
    rw [List.any_eq_true]
    exact ⟨v, hv, by simp [mkUser, hve]⟩
  simp only [SQLModelUserDatabase.create, SQLModelUserDatabaseAsync.create, hany]
  exact ⟨rfl, rfl, rfl, rfl⟩

/-- Witness for C5: creating `lancelot@camelot.bt` a second time fails and
leaves the single-user store as it was. -/
theorem create_duplicate_email_fails_witness :
    (∃ v ∈ (⟨[⟨1, "lancelot@camelot.bt", "guinevere", true, false, false⟩], []⟩
        : DBState).users,
      v.email = (⟨none, "lancelot@camelot.bt", "guinevere", none, none, none⟩
          : CreateUserDict).email) ∧
    (SQLModelUserDatabase.create
      ⟨[⟨1, "lancelot@camelot.bt", "guinevere", true, false, false⟩], []⟩ 2
      ⟨none, "lancelot@camelot.bt", "guinevere", none, none, none⟩).1
      = .error .integrityError ∧
    (SQLModelUserDatabase.create
      ⟨[⟨1, "lancelot@camelot.bt", "guinevere", true, false, false⟩], []⟩ 2
      ⟨none, "lancelot@camelot.bt", "guinevere", none, none, none⟩).2
      = ⟨[⟨1, "lancelot@camelot.bt", "guinevere", true, false, false⟩], []⟩ := by
  refine ⟨by decide, ?_⟩
  have h := create_duplicate_email_fails
    ⟨[⟨1, "lancelot@camelot.bt", "guinevere", true, false, false⟩], []⟩ 2
    ⟨none, "lancelot@camelot.bt", "guinevere", none, none, none⟩ (by decide)
  exact ⟨h.1, h.2.1⟩

theorem setAttr_getField_key (u : UserDB) (a : UserAssign) :
    (u.setAttr a).getField a.key = a.val := by
  cases a <;> rfl

theorem setAttr_getField_ne (u : UserDB) (a : UserAssign) (k : UserField)
    (h : k ≠ a.key) : (u.setAttr a).getField k = u.getField k := by
  cases a <;> cases k <;> first
    | rfl
    | exact absurd rfl h

theorem applyUserUpdates_cons (u : UserDB) (a : UserAssign) (t : List UserAssign) :
    applyUserUpdates u (a :: t) = applyUserUpdates (u.setAttr a) t := rfl

theorem applyUserUpdates_preserve (u : UserDB) (d : List UserAssign) (k : UserField)
    (h : k ∉ d.map UserAssign.key) :
    (applyUserUpdates u d).getField k = u.getField k := by
  induction d generalizing u with
  | nil => rfl
  | cons a t ih =>
    rw [List.map_cons, List.mem_cons] at h
    push_neg at h
    rw [applyUserUpdates_cons, ih (u.setAttr a) h.2]
    exact setAttr_getField_ne u a k h.1

theorem applyUserUpdates_sets (u : UserDB) (d : List UserAssign)
    (hkeys : (d.map UserAssign.key).Nodup) :
    ∀ a ∈ d, (applyUserUpdates u d).getField a.key = a.val := by
  induction d generalizing u with
  | nil => intro a ha; cases ha
  | cons b t ih =>
    rw [List.map_cons, List.nodup_cons] at hkeys
    intro a ha
    rcases List.mem_cons.mp ha with rfl | hat
    · rw [applyUserUpdates_cons, applyUserUpdates_preserve (u.setAttr a) t a.key hkeys.1]
      exact setAttr_getField_key u a
    · exact ih (u.setAttr b) hkeys.2 a hat

theorem find_replace (l : List UserDB) (user u2 : UserDB)
    (hmem : user ∈ l)
    (hothers : ∀ v ∈ l, v.id ≠ user.id → v.id ≠ u2.id) :
    (l.map (fun v => if v.id == user.id then u2 else v)).find?
      (fun v => v.id == u2.id) = some u2 := by
  induction l with
  | nil => cases hmem
  | cons v t ih =>
    rw [List.map_cons]
    by_cases hv : v.id = user.id
    · rw [if_pos (by simpa using hv)]
      exact List.find?_cons_of_pos _ (by simp)
    · rw [if_neg (by simpa using hv)]
      have hvne : v.id ≠ u2.id := hothers v (List.mem_cons_self v t) hv
      rw [List.find?_cons_of_neg _ (by simpa using hvne)]
      have hmem2 : user ∈ t := by
        rcases List.mem_cons.mp hmem with rfl | h2
        · exact absurd rfl hv
        · exact h2
      exact ih hmem2 (fun w hw => hothers w (List.mem_cons_of_mem v hw))

/-- C8: A successful `update(user, update_dict)` returns a record in which
every field named in the dict equals the supplied value, and a subsequent
`get` with the (updated) user's id returns that same record. -/
theorem update_reflects_changes (s : DBState) (user : UserDB) (d : List UserAssign)
    (r : UserDB)
    (hmem : user ∈ s.users)
    (hkeys : (d.map UserAssign.key).Nodup)
    (hok : (SQLModelUserDatabase.update s user d).1 = .ok r) :
    (∀ a ∈ d, r.getField a.key = a.val) ∧
    SQLModelUserDatabase.get (SQLModelUserDatabase.update s user d).2 r.id = some r := by
  by_cases hc : (s.users.filter (fun v => v.id != user.id)).any
      (fun v => v.id == (applyUserUpdates user d).id
        || v.email == (applyUserUpdates user d).email)
  · exfalso
    simp only [SQLModelUserDatabase.update, hc, if_true] at hok
    exact Except.noConfusion hok
  · have hr : r = applyUserUpdates user d := by
      simp only [SQLModelUserDatabase.update, hc, if_false] at hok
      exact (Except.ok.injEq _ _ ▸ hok).symm
    subst hr
    constructor
    · exact applyUserUpdates_sets user d hkeys
    · simp only [SQLModelUserDatabase.update, hc, if_false, SQLModelUserDatabase.get]
      refine find_replace s.users user (applyUserUpdates user d) hmem ?_
      intro v hv hne
      rw [Bool.not_eq_true, List.any_eq_false] at hc
      have := hc v (List.mem_filter.mpr ⟨hv, by simpa using hne⟩)
      simp only [Bool.or_eq_true, beq_iff_eq, not_or] at this
      exact this.1

/-- Witness for C8: setting `is_superuser` on the stored user is reflected
in the returned record and in a subsequent `get`. -/
theorem update_reflects_changes_witness :
    (⟨1, "lancelot@camelot.bt", "guinevere", true, false, false⟩ : UserDB)
      ∈ (⟨[⟨1, "lancelot@camelot.bt", "guinevere", true, false, false⟩], []⟩
          : DBState).users ∧
    ([UserAssign.aIsSuperuser true].map UserAssign.key).Nodup ∧
    (SQLModelUserDatabase.update
      ⟨[⟨1, "lancelot@camelot.bt", "guinevere", true, false, false⟩], []⟩
      ⟨1, "lancelot@camelot.bt", "guinevere", true, false, false⟩
      [UserAssign.aIsSuperuser true]).1
      = .ok ⟨1, "lancelot@camelot.bt", "guinevere", true, true, false⟩ ∧
    (∀ a ∈ [UserAssign.aIsSuperuser true],
      (⟨1, "lancelot@camelot.bt", "guinevere", true, true, false⟩ : UserDB).getField
        a.key = a.val) ∧
    SQLModelUserDatabase.get
      (SQLModelUserDatabase.update
        ⟨[⟨1, "lancelot@camelot.bt", "guinevere", true, false, false⟩], []⟩
        ⟨1, "lancelot@camelot.bt", "guinevere", true, false, false⟩
        [UserAssign.aIsSuperuser true]).2
      (⟨1, "lancelot@camelot.bt", "guinevere", true, true, false⟩ : UserDB).id
      = some ⟨1, "lancelot@camelot.bt", "guinevere", true, true, false⟩ := by
  refine ⟨by decide, by decide, by rfl, ?_⟩
  exact update_reflects_changes
    ⟨[⟨1, "lancelot@camelot.bt", "guinevere", true, false, false⟩], []⟩
    ⟨1, "lancelot@camelot.bt", "guinevere", true, false, false⟩
    [UserAssign.aIsSuperuser true]
    ⟨1, "lancelot@camelot.bt", "guinevere", true, true, false⟩
    (by decide) (by decide) (by rfl)

theorem oauthSetAttr_getField_ne (a : OAuthAccount) (u : OAuthAssign) (k : OAuthField)
    (h : k ≠ u.key) : (a.setAttr u).getField k = a.getField k := by
  cases u <;> cases k <;> first
    | rfl
    | exact absurd rfl h

theorem applyOAuthUpdates_cons (a : OAuthAccount) (u : OAuthAssign)
    (t : List OAuthAssign) :
    applyOAuthUpdates a (u :: t) = applyOAuthUpdates (a.setAttr u) t := rfl

theorem applyOAuthUpdates_preserve (a : OAuthAccount) (d : List OAuthAssign)
    (k : OAuthField) (h : k ∉ d.map OAuthAssign.key) :
    (applyOAuthUpdates a d).getField k = a.getField k := by
  induction d generalizing a with
  | nil => rfl
  | cons u t ih =>
    rw [List.map_cons, List.mem_cons] at h
    push_neg at h
    rw [applyOAuthUpdates_cons, ih (a.setAttr u) h.2]
    exact oauthSetAttr_getField_ne a u k h.1

/-- C10: A successful `update_oauth_account(user, oauth_account,
update_dict)` returns the very user it was given; the user rows are
untouched, every OAuth account other than the targeted one stays in the
store unchanged, and any field of the targeted account not named in the
dict keeps its value. -/
theorem update_oauth_account_frame (s : DBState) (user : UserDB) (oa : OAuthAccount)
    (d : List OAuthAssign) (r : UserDB) (k : OAuthField)
    (hok : (SQLModelUserDatabase.update_oauth_account true s user oa d).1 = .ok r)
    (hk : k ∉ d.map OAuthAssign.key) :
    r = user ∧
    (SQLModelUserDatabase.update_oauth_account true s user oa d).2.users = s.users ∧
    (∀ x ∈ s.oauthAccounts, x.id ≠ oa.id →
      x ∈ (SQLModelUserDatabase.update_oauth_account true s user oa d).2.oauthAccounts) ∧
    (applyOAuthUpdates oa d).getField k = oa.getField k := by
  by_cases hc : (s.oauthAccounts.filter (fun x => x.id != oa.id)).any
      (fun x => x.id == (applyOAuthUpdates oa d).id)
  · exfalso
    simp only [SQLModelUserDatabase.update_oauth_account, Bool.not_true, hc,
      if_true, Bool.false_eq_true, if_false] at hok
    exact Except.noConfusion hok
  · have hstate : (SQLModelUserDatabase.update_oauth_account true s user oa d)
        = (.ok user,
            { s with oauthAccounts := s.oauthAccounts.map fun x =>
                if x.id == oa.id then applyOAuthUpdates oa d else x }) := by
      simp only [SQLModelUserDatabase.update_oauth_account, Bool.not_true, hc,
        Bool.false_eq_true, if_false]
    rw [hstate] at hok ⊢
    refine ⟨(Except.ok.injEq _ _ ▸ hok).symm, rfl, ?_,
      applyOAuthUpdates_preserve oa d k hk⟩
    intro x hx hne
    have : (if x.id == oa.id then applyOAuthUpdates oa d else x) = x :=
      if_neg (by simpa using hne)
    exact this ▸ List.mem_map_of_mem _ hx

/-- Witness for C10: updating the sample OAuth account's access token
returns the same user, keeps the user rows and the other account, and
leaves the account's `account_id` field alone. -/
theorem update_oauth_account_frame_witness :
    (SQLModelUserDatabase.update_oauth_account true
      ⟨[⟨1, "lancelot@camelot.bt", "guinevere", true, false, false⟩],
        [⟨5, 1, "service1", "TOKEN", none, none, "user_oauth1", "king@camelot.bt"⟩,
         ⟨6, 1, "service2", "TOKEN2", none, none, "user_oauth2", "king@camelot.bt"⟩]⟩
      ⟨1, "lancelot@camelot.bt", "guinevere", true, false, false⟩
      ⟨5, 1, "service1", "TOKEN", none, none, "user_oauth1", "king@camelot.bt"⟩
      [OAuthAssign.aAccessToken "NEW_TOKEN"]).1
      = .ok ⟨1, "lancelot@camelot.bt", "guinevere", true, false, false⟩ ∧
    OAuthField.fAccountId
      ∉ [OAuthAssign.aAccessToken "NEW_TOKEN"].map OAuthAssign.key ∧
    (SQLModelUserDatabase.update_oauth_account true
      ⟨[⟨1, "lancelot@camelot.bt", "guinevere", true, false, false⟩],
        [⟨5, 1, "service1", "TOKEN", none, none, "user_oauth1", "king@camelot.bt"⟩,
         ⟨6, 1, "service2", "TOKEN2", none, none, "user_oauth2", "king@camelot.bt"⟩]⟩
      ⟨1, "lancelot@camelot.bt", "guinevere", true, false, false⟩
      ⟨5, 1, "service1", "TOKEN", none, none, "user_oauth1", "king@camelot.bt"⟩
      [OAuthAssign.aAccessToken "NEW_TOKEN"]).2.users
      = [⟨1, "lancelot@camelot.bt", "guinevere", true, false, false⟩] ∧
    (∀ x ∈ [(⟨5, 1, "service1", "TOKEN", none, none, "user_oauth1",
          "king@camelot.bt"⟩ : OAuthAccount),
        ⟨6, 1, "service2", "TOKEN2", none, none, "user_oauth2", "king@camelot.bt"⟩],
      x.id ≠ 5 →
      x ∈ (SQLModelUserDatabase.update_oauth_account true
        ⟨[⟨1, "lancelot@camelot.bt", "guinevere", true, false, false⟩],
          [⟨5, 1, "service1", "TOKEN", none, none, "user_oauth1", "king@camelot.bt"⟩,
           ⟨6, 1, "service2", "TOKEN2", none, none, "user_oauth2",
             "king@camelot.bt"⟩]⟩
        ⟨1, "lancelot@camelot.bt", "guinevere", true, false, false⟩
        ⟨5, 1, "service1", "TOKEN", none, none, "user_oauth1", "king@camelot.bt"⟩
        [OAuthAssign.aAccessToken "NEW_TOKEN"]).2.oauthAccounts) ∧
    (applyOAuthUpdates
      ⟨5, 1, "service1", "TOKEN", none, none, "user_oauth1", "king@camelot.bt"⟩
      [OAuthAssign.aAccessToken "NEW_TOKEN"]).getField OAuthField.fAccountId
      = (⟨5, 1, "service1", "TOKEN", none, none, "user_oauth1",
          "king@camelot.bt"⟩ : OAuthAccount).getField OAuthField.fAccountId := by
  have h := update_oauth_account_frame
    ⟨[⟨1, "lancelot@camelot.bt", "guinevere", true, false, false⟩],
      [⟨5, 1, "service1", "TOKEN", none, none, "user_oauth1", "king@camelot.bt"⟩,
       ⟨6, 1, "service2", "TOKEN2", none, none, "user_oauth2", "king@camelot.bt"⟩]⟩
    ⟨1, "lancelot@camelot.bt", "guinevere", true, false, false⟩
    ⟨5, 1, "service1", "TOKEN", none, none, "user_oauth1", "king@camelot.bt"⟩
    [OAuthAssign.aAccessToken "NEW_TOKEN"]
    ⟨1, "lancelot@camelot.bt", "guinevere", true, false, false⟩
    OAuthField.fAccountId (by rfl) (by decide)
  exact ⟨by rfl, by decide, by rfl, fun x hx hne => h.2.2.1 x hx hne, h.2.2.2⟩

theorem nodup_append_singleton {β : Type} (l : List β) (x : β) (h : l.Nodup)
    (hx : x ∉ l) : (l ++ [x]).Nodup := by
  rw [List.nodup_append]
  refine ⟨h, List.nodup_singleton x, ?_⟩
  intro a ha hax
  rw [List.mem_singleton] at hax
  exact hx (hax ▸ ha)

theorem map_replace_nodup {β : Type} (l : List UserDB) (uid : Nat) (u2 : UserDB)
    (g : UserDB → β)
    (hg : (l.map g).Nodup)
    (hid : (l.map (fun v => v.id)).Nodup)
    (hother : ∀ v ∈ l, v.id ≠ uid → g v ≠ g u2) :
    ((l.map (fun v => if v.id == uid then u2 else v)).map g).Nodup := by
  induction l with
  | nil => exact List.nodup_nil
  | cons v t ih =>
    rw [List.map_cons, List.nodup_cons] at hg
    rw [List.map_cons, List.nodup_cons] at hid
    rw [List.map_cons, List.map_cons, List.nodup_cons]
    constructor
    · intro hmem
      simp only [List.mem_map] at hmem
      obtain ⟨w, hw, heq⟩ : ∃ w ∈ t, g (if w.id == uid then u2 else w)
          = g (if v.id == uid then u2 else v) := by
        obtain ⟨a, ⟨w, hw, rfl⟩, heq⟩ := hmem
        exact ⟨w, hw, heq⟩
      by_cases hv : v.id = uid
      · by_cases hwid : w.id = uid
        · exact hid.1 (by rw [hv, ← hwid]; exact List.mem_map_of_mem _ hw)
        · rw [if_neg (by simpa using hwid), if_pos (by simpa using hv)] at heq
          exact hother w (List.mem_cons_of_mem v hw) hwid heq
      · by_cases hwid : w.id = uid
        · rw [if_pos (by simpa using hwid), if_neg (by simpa using hv)] at heq
          exact hother v (List.mem_cons_self v t) hv heq.symm
        · rw [if_neg (by simpa using hwid), if_neg (by simpa using hv)] at heq
          exact hg.1 (heq ▸ List.mem_map_of_mem _ hw)
    · exact ih hg.2 hid.2 (fun w hw => hother w (List.mem_cons_of_mem v hw))

theorem reachable_wf (s : DBState) (h : Reachable s) :
    (s.users.map (fun u => u.id)).Nodup ∧ (s.users.map (fun u => u.email)).Nodup := by
  induction h with
  | empty => exact ⟨List.nodup_nil, List.nodup_nil⟩
  | step_create s f d hs ih =>
    by_cases hc : s.users.any
        (fun v => v.id == (mkUser f d).id || v.email == (mkUser f d).email)
    · simp only [SQLModelUserDatabase.create, hc, if_true]
      exact ih
    · simp only [SQLModelUserDatabase.create, hc, Bool.false_eq_true, if_false]
      rw [Bool.not_eq_true, List.any_eq_false] at hc
      have hfree : ∀ v ∈ s.users, v.id ≠ (mkUser f d).id
          ∧ v.email ≠ (mkUser f d).email := by
        intro v hv
        have := hc v hv
        simpa [not_or] using this
      constructor
      · rw [List.map_append]
        refine nodup_append_singleton _ _ ih.1 ?_
        intro hmem
        obtain ⟨w, hw, heq⟩ := List.mem_map.mp hmem
        exact (hfree w hw).1 heq
      · rw [List.map_append]
        refine nodup_append_singleton _ _ ih.2 ?_
        intro hmem
        obtain ⟨w, hw, heq⟩ := List.mem_map.mp hmem
        exact (hfree w hw).2 heq
  | step_update s u d hs ih =>
    by_cases hc : (s.users.filter (fun v => v.id != u.id)).any
        (fun v => v.id == (applyUserUpdates u d).id
          || v.email == (applyUserUpdates u d).email)
    · simp only [SQLModelUserDatabase.update, hc, if_true]
      exact ih
    · simp only [SQLModelUserDatabase.update, hc, Bool.false_eq_true, if_false]
      rw [Bool.not_eq_true, List.any_eq_false] at hc
      have hfree : ∀ v ∈ s.users, v.id ≠ u.id →
          v.id ≠ (applyUserUpdates u d).id
            ∧ v.email ≠ (applyUserUpdates u d).email := by
        intro v hv hne
        have := hc v (List.mem_filter.mpr ⟨hv, by simpa using hne⟩)
        simpa [not_or] using this
      exact ⟨map_replace_nodup s.users u.id (applyUserUpdates u d) _ ih.1 ih.1
          (fun v hv hne => (hfree v hv hne).1),
        map_replace_nodup s.users u.id (applyUserUpdates u d) _ ih.2 ih.1
          (fun v hv hne => (hfree v hv hne).2)⟩
  | step_delete s u hs ih =>
    have hsub : ((s.users.filter (fun v => v.id != u.id)).map (fun v => v.id)).Sublist
        (s.users.map (fun v => v.id)) := (List.filter_sublist s.users).map _
    have hsub2 : ((s.users.filter (fun v => v.id != u.id)).map
        (fun v => v.email)).Sublist (s.users.map (fun v => v.email)) :=
      (List.filter_sublist s.users).map _
    exact ⟨ih.1.sublist hsub, ih.2.sublist hsub2⟩
  | step_add_oauth hm s u f d hs ih =>
    cases hm with
    | false => exact ih
    | true =>
      by_cases hc : s.oauthAccounts.any
          (fun a => a.id == (mkOAuthAccount f u.id d).id)
      · simp only [SQLModelUserDatabase.add_oauth_account, Bool.not_true, hc,
          Bool.false_eq_true, if_false, if_true]
        exact ih
      · simp only [SQLModelUserDatabase.add_oauth_account, Bool.not_true, hc,
          Bool.false_eq_true, if_false]
        exact ih
  | step_update_oauth hm s u oa d hs ih =>
    cases hm with
    | false => exact ih
    | true =>
      by_cases hc : (s.oauthAccounts.filter (fun x => x.id != oa.id)).any
          (fun x => x.id == (applyOAuthUpdates oa d).id)
      · simp only [SQLModelUserDatabase.update_oauth_account, Bool.not_true, hc,
          Bool.false_eq_true, if_false, if_true]
        exact ih
      · simp only [SQLModelUserDatabase.update_oauth_account, Bool.not_true, hc,
          Bool.false_eq_true, if_false]
        exact ih

/-- C6 (amended): Email uniqueness enforced by the schema is exact-match
(the UNIQUE constraint compares strings with binary collation), not
case-insensitive: in every reachable store state no two users have the same
email string. -/
theorem reachable_email_exact_unique (s : DBState) (h : Reachable s) :
    (s.users.map (fun u => u.email)).Nodup :=
  (reachable_wf s h).2

/-- Witness for C6 (amended): the state after one `create` is reachable and
its emails are pairwise distinct. -/
theorem reachable_email_exact_unique_witness :
    Reachable (SQLModelUserDatabase.create ⟨[], []⟩ 1
      ⟨none, "lancelot@camelot.bt", "guinevere", none, none, none⟩).2 ∧
    (((SQLModelUserDatabase.create ⟨[], []⟩ 1
      ⟨none, "lancelot@camelot.bt", "guinevere", none, none, none⟩).2).users.map
      (fun u => u.email)).Nodup :=
  ⟨Reachable.step_create ⟨[], []⟩ 1
      ⟨none, "lancelot@camelot.bt", "guinevere", none, none, none⟩ Reachable.empty,
    reachable_email_exact_unique _
      (Reachable.step_create ⟨[], []⟩ 1
        ⟨none, "lancelot@camelot.bt", "guinevere", none, none, none⟩
        Reachable.empty)⟩

/-- Counterexample for C6 as stated: with `lancelot@camelot.bt` stored,
creating `Lancelot@camelot.bt` (same email up to case) does NOT fail with a
uniqueness violation — it succeeds, and the resulting reachable store holds
two users whose emails are equal ignoring case. -/
theorem case_insensitive_uniqueness_fails :
    (SQLModelUserDatabase.create
      (SQLModelUserDatabase.create ⟨[], []⟩ 1
        ⟨none, "lancelot@camelot.bt", "guinevere", none, none, none⟩).2 2
      ⟨none, "Lancelot@camelot.bt", "aaa", none, none, none⟩).1
      ≠ .error .integrityError ∧
    ((SQLModelUserDatabase.create
      (SQLModelUserDatabase.create ⟨[], []⟩ 1
        ⟨none, "lancelot@camelot.bt", "guinevere", none, none, none⟩).2 2
      ⟨none, "Lancelot@camelot.bt", "aaa", none, none, none⟩).2).users.map
      (fun u => sqlLower u.email)
      = ["lancelot@camelot.bt", "lancelot@camelot.bt"] := by
  constructor
  · intro hcontra
    have hok : (SQLModelUserDatabase.create
        (SQLModelUserDatabase.create ⟨[], []⟩ 1
          ⟨none, "lancelot@camelot.bt", "guinevere", none, none, none⟩).2 2
        ⟨none, "Lancelot@camelot.bt", "aaa", none, none, none⟩).1
        = .ok ⟨2, "Lancelot@camelot.bt", "aaa", true, false, false⟩ := rfl
    rw [hok] at hcontra
    exact Except.noConfusion hcontra
  · decide
